import Mathlib

/-!
# FRI prover (commit + query phases): shallow embedding

Embedding of `src/fri/src/prover/monolith/mod.rs` (the monolithic FRI
prover).  Field elements are modelled by `Nat`: every claim under
verification is structural (lengths, orderings, transcript discipline,
error behaviour), not about field arithmetic, which the spec places out
of scope.  Collaborators that live elsewhere in the repository
(`winter-utils`, the `crypto` crate, `FriOptions`, `FriProof`,
`ProverChannel`) are modelled from the spec, each marked in its doc
comment.
-/

namespace Fri

/-- Field-element stand-in (a toy carrier; field arithmetic is out of scope). -/
abbrev Elem := Nat

/-- Modelled from the spec: `transpose_slice` from the repo's `utils` crate is
not under `src/`.  Spec §4.1 step 1: reshape a vector of length `L` into
`rows = L / N` rows of `N` elements, row `i` gathering elements at positions
`i, i + rows, i + 2*rows, …` (stride transposition). -/
def transpose_slice (v : List Elem) (N : Nat) : List (List Elem) :=
  let rows := v.length / N
  (List.range rows).map (fun i => (List.range N).map (fun j => v.getD (i + j * rows) 0))

/-- Modelled from the spec: `flatten_vector_elements` from the repo's `utils`
crate is not under `src/`; it flattens a vector of fixed-size rows back into a
linear buffer (row-major). -/
def flatten_vector_elements (m : List (List Elem)) : List Elem :=
  m.flatten

/-- Modelled from the spec: `group_slice_elements` from the repo's `utils`
crate is not under `src/`; it reinterprets a linear buffer as consecutive
groups of `N` elements. -/
def group_slice_elements (v : List Elem) (N : Nat) : List (List Elem) :=
  (List.range (v.length / N)).map (fun i => (List.range N).map (fun j => v.getD (i * N + j) 0))

/-- Modelled from the spec: the row hash of the hash/Merkle collaborator
(§6, `hash_row`); the concrete mixing formula is schematic, only determinism
matters to the claims. -/
def hash_row (row : List Elem) : Nat :=
  row.foldl (fun a x => 31 * a + x + 1) 7

/-- Modelled from the spec: `hash_values` (repo `fri` crate utils, not under
`src/`) hashes each transposed row independently to form the Merkle leaves. -/
def hash_values (rows : List (List Elem)) : List Nat :=
  rows.map hash_row

/-- Modelled from the spec: the Merkle-tree collaborator (§6).  Internal
construction and batched proofs are out of scope; the model keeps the leaf
digests, exposes a root derived from them, and an opaque batched proof. -/
structure MerkleTree where
  leaves : List Nat
deriving Repr, DecidableEq

namespace MerkleTree

/-- Modelled from the spec: `build(leaves) -> tree`. -/
def new (leaves : List Nat) : MerkleTree := ⟨leaves⟩

/-- Modelled from the spec: number of leaves the tree was built over. -/
def leaf_count (t : MerkleTree) : Nat := t.leaves.length

/-- Modelled from the spec: `tree.root() -> digest`, a digest of all leaves. -/
def root (t : MerkleTree) : Nat :=
  t.leaves.foldl (fun a x => 31 * a + x + 3) 11

/-- Modelled from the spec: `tree.prove_batch(positions)` returns a single
batched authentication structure covering the requested leaf indices; its
internal shape is opaque, so the model records the requested indices. -/
def prove_batch (_t : MerkleTree) (positions : List Nat) : List Nat :=
  positions

end MerkleTree

/-- Events absorbed into the Fiat–Shamir transcript, in order. -/
inductive ChannelEvent where
  | commit (root : Nat)
  | draw (alpha : Elem)
deriving Repr, DecidableEq

/-- Modelled from the spec: deterministic derivation of a pseudo-random
scalar from the current transcript state (§6 `draw_challenge`); the concrete
mixing formula is schematic. -/
def drawValue (trace : List ChannelEvent) : Elem :=
  trace.foldl
    (fun a e =>
      match e with
      | ChannelEvent.commit r => 31 * a + r + 13
      | ChannelEvent.draw x => 31 * a + x + 17)
    5

/-- Modelled from the spec: the transcript/channel collaborator (§6),
i.e. the `ProverChannel` trait object.  Its state is the ordered list of
absorbed commitments and emitted challenges. -/
structure Channel where
  trace : List ChannelEvent
deriving Repr, DecidableEq

namespace Channel

/-- Modelled from the spec: `commit(root)` absorbs a layer's Merkle root. -/
def commit_fri_layer (c : Channel) (root : Nat) : Channel :=
  ⟨c.trace ++ [ChannelEvent.commit root]⟩

/-- Modelled from the spec: `draw_challenge` derives a scalar from the current
transcript state (and the emitted challenge itself becomes part of the
transcript history). -/
def draw_fri_alpha (c : Channel) : Elem × Channel :=
  let a := drawValue c.trace
  (a, ⟨c.trace ++ [ChannelEvent.draw a]⟩)

end Channel

/-- Modelled from the spec: the degree-respecting projection `apply_drp`
(repo `fri` crate `folding`, not under `src/`).  Only its input/output
contract matters (§4.3): one folded element per transposed row, a function of
the row, the domain offset and the challenge; the per-row arithmetic is
schematic. -/
def apply_drp (rows : List (List Elem)) (offset : Elem) (alpha : Elem) : List Elem :=
  rows.map (fun row => row.foldl (fun a x => a * alpha + x) offset)

/-- Insertion into a sorted list (ascending); structural helper for the
`fold_positions` model. -/
def insertSorted (x : Nat) : List Nat → List Nat
  | [] => [x]
  | y :: ys => if x ≤ y then x :: y :: ys else y :: insertSorted x ys

/-- Insertion sort (ascending); structural helper for the `fold_positions`
model. -/
def sortAsc (l : List Nat) : List Nat := l.foldr insertSorted []

/-- Modelled from the spec: `fold_positions` (repo `fri` crate utils, not
under `src/`).  §4.4: deduplicated, sorted set of positions modulo
`domain_size / folding_factor`. -/
def fold_positions (positions : List Nat) (domain_size : Nat) (folding_factor : Nat) :
    List Nat :=
  let target_domain_size := domain_size / folding_factor
  sortAsc ((positions.map (fun p => p % target_domain_size)).dedup)

/-- Modelled from the spec: the configuration collaborator `FriOptions`
(§3, §6): folding factor, domain offset, maximum remainder size. -/
structure FriOptions where
  folding_factor : Nat
  domain_offset : Elem
  max_remainder_size : Nat
deriving Repr, DecidableEq

/-- Modelled from the spec: `FriOptions::num_fri_layers` — how many folding
rounds are required before the remaining evaluations fit within the maximum
remainder size (§3): count divisions of the domain size by the folding factor
until it is at most `max_remainder_size`.  The fuel argument (instantiated
with the domain size itself) only bounds the loop; it is never exhausted for
the supported folding factors, which all exceed 1. -/
def numFriLayersAux (ff max_rem : Nat) : Nat → Nat → Nat
  | 0, _ => 0
  | fuel + 1, domain_size =>
    if max_rem < domain_size then
      numFriLayersAux ff max_rem fuel (domain_size / ff) + 1
    else 0

def FriOptions.num_fri_layers (opt : FriOptions) (domain_size : Nat) : Nat :=
  numFriLayersAux opt.folding_factor opt.max_remainder_size domain_size domain_size

/-- `FriProofLayer` (repo `fri` crate proof module, not under `src/`).
Modelled from the spec: per-layer record of queried value groups plus one
batched Merkle authentication structure (§6). -/
structure FriProofLayer where
  queried_values : List (List Elem)
  proof : List Nat
deriving Repr, DecidableEq

def FriProofLayer.new (queried_values : List (List Elem)) (proof : List Nat) :
    FriProofLayer :=
  ⟨queried_values, proof⟩

/-- `FriProof` (repo `fri` crate proof module, not under `src/`).  Modelled
from the spec: ordered proof layers, the un-transposed remainder, and a third
numeric metadata slot — per the spec (§3, §6) this slot records the folding
factor used by the prover. -/
structure FriProof where
  layers : List FriProofLayer
  remainder : List Elem
  folding_metadata : Nat
deriving Repr, DecidableEq

def FriProof.new (layers : List FriProofLayer) (remainder : List Elem)
    (folding_metadata : Nat) : FriProof :=
  ⟨layers, remainder, folding_metadata⟩

/-- One committed layer: Merkle tree plus the (transposed) evaluations
(`FriLayer` in the source; the `PhantomData` marker carries no data). -/
structure FriLayer where
  tree : MerkleTree
  evaluations : List Elem
deriving Repr, DecidableEq

instance : Inhabited FriLayer := ⟨⟨⟨[]⟩, []⟩⟩

/-- The FRI prover state: options plus the stored layers (`FriProver` in the
source; the `PhantomData` coin marker carries no data). -/
structure FriProver where
  options : FriOptions
  layers : List FriLayer
deriving Repr, DecidableEq

/-- Fatal conditions of the source, kept apart: the two `assert!` macros and
the `unimplemented!` dispatch arms. -/
inductive FriError where
  | priorProofPending
  | layersNotBuilt
  | unsupportedFoldingFactor (ff : Nat)
  | positionOutOfRange
deriving Repr, DecidableEq

instance {ε α : Type} [DecidableEq ε] [DecidableEq α] : DecidableEq (Except ε α) :=
  fun x y =>
  match x, y with
  | Except.ok a, Except.ok b =>
    if h : a = b then Decidable.isTrue (by rw [h])
    else Decidable.isFalse (by intro hc; cases hc; exact h rfl)
  | Except.error e, Except.error f =>
    if h : e = f then Decidable.isTrue (by rw [h])
    else Decidable.isFalse (by intro hc; cases hc; exact h rfl)
  | Except.ok _, Except.error _ => Decidable.isFalse (by intro hc; cases hc)
  | Except.error _, Except.ok _ => Decidable.isFalse (by intro hc; cases hc)

namespace FriProver

/-- `FriProver::new`. -/
def new (options : FriOptions) : FriProver := ⟨options, []⟩

/-- `FriProver::folding_factor`. -/
def folding_factor (p : FriProver) : Nat := p.options.folding_factor

/-- `FriProver::domain_offset`. -/
def domain_offset (p : FriProver) : Elem := p.options.domain_offset

/-- `FriProver::num_layers`. -/
def num_layers (p : FriProver) : Nat := p.layers.length

/-- `FriProver::reset`. -/
def reset (p : FriProver) : FriProver := { p with layers := [] }

/-- `FriProver::build_layer` (one commit-phase round): transpose the current
evaluations into rows of `N`, hash the rows, build the Merkle tree, commit
its root to the channel, draw alpha, apply the degree-respecting projection,
and store the layer.  Returns the updated prover, channel and the folded
evaluations. -/
def build_layer (p : FriProver) (c : Channel) (evaluations : List Elem) (N : Nat) :
    FriProver × Channel × List Elem :=
  let transposed_evaluations := transpose_slice evaluations N
  let hashed_evaluations := hash_values transposed_evaluations
  let evaluation_tree := MerkleTree.new hashed_evaluations
  let c1 := c.commit_fri_layer evaluation_tree.root
  let (alpha, c2) := c1.draw_fri_alpha
  let new_evaluations := apply_drp transposed_evaluations p.options.domain_offset alpha
  ({ p with
      layers := p.layers ++
        [{ tree := evaluation_tree,
           evaluations := flatten_vector_elements transposed_evaluations }] },
   c2, new_evaluations)

/-- The commit-phase loop body of `build_layers`: `k` remaining iterations,
dispatching on the folding factor exactly as the source `match` does
(4 / 8 / 16 supported, anything else is `unimplemented!`). -/
def buildLayersLoop (ff : Nat) :
    Nat → FriProver → Channel → List Elem →
    Except FriError (FriProver × Channel × List Elem)
  | 0, p, c, ev => Except.ok (p, c, ev)
  | k + 1, p, c, ev =>
    if ff = 4 ∨ ff = 8 ∨ ff = 16 then
      let s := build_layer p c ev ff
      buildLayersLoop ff k s.1 s.2.1 s.2.2
    else Except.error (FriError.unsupportedFoldingFactor ff)

/-- `FriProver::build_layers` (commit phase): asserts no layers are pending,
then runs `num_fri_layers(len) + 1` rounds (the `+ 1` is for the remainder).
The trailing `debug_assert!` on the remainder size is a non-fatal
(debug-build-only) check and produces no error path here. -/
def build_layers (p : FriProver) (c : Channel) (evaluations : List Elem) :
    Except FriError (FriProver × Channel) :=
  if p.layers.isEmpty then
    match buildLayersLoop p.folding_factor
        (p.options.num_fri_layers evaluations.length + 1) p c evaluations with
    | Except.ok (p', c', _) => Except.ok (p', c')
    | Except.error e => Except.error e
  else Except.error FriError.priorProofPending

end FriProver

/-- `query_layer`: batched Merkle proof at the positions, plus, for each
position, the group of `N` transposed evaluations committed in that leaf.
An out-of-range index (`evaluations[position]` in the source) is a fatal
programming error, surfaced here as `positionOutOfRange`. -/
def query_layer (layer : FriLayer) (positions : List Nat) (N : Nat) :
    Except FriError FriProofLayer :=
  let proof := layer.tree.prove_batch positions
  let evaluations := group_slice_elements layer.evaluations N
  if positions.all (fun p => p < evaluations.length) then
    Except.ok (FriProofLayer.new (positions.map (fun p => evaluations.getD p [])) proof)
  else Except.error FriError.positionOutOfRange

namespace FriProver

/-- The un-transposition of the remainder performed inline in `build_proof`:
starting from a zeroed vector, for `i` in `0..n` and `j` in
`0..folding_factor`, `remainder[i + n * j] = last_values[i * folding_factor + j]`. -/
def untranspose (last_values : List Elem) (folding_factor : Nat) : List Elem :=
  let n := last_values.length / folding_factor
  (((List.range n).flatMap fun i =>
      (List.range folding_factor).map fun j =>
        (i + n * j, last_values.getD (i * folding_factor + j) 0))).foldl
    (fun acc p => acc.set p.1 p.2) (List.replicate last_values.length 0)

/-- The query-phase loop of `build_proof`, over all layers except the last:
fold the positions to the smaller domain, dispatch `query_layer` on the
folding factor (4 / 8 / 16, else `unimplemented!`), and shrink the domain
size. -/
def buildProofLoop (ff : Nat) :
    List FriLayer → List Nat → Nat → Except FriError (List FriProofLayer)
  | [], _, _ => Except.ok []
  | layer :: rest, positions, domain_size =>
    let positions' := fold_positions positions domain_size ff
    if ff = 4 ∨ ff = 8 ∨ ff = 16 then
      match query_layer layer positions' ff with
      | Except.error e => Except.error e
      | Except.ok proof_layer =>
        match buildProofLoop ff rest positions' (domain_size / ff) with
        | Except.error e => Except.error e
        | Except.ok rest_layers => Except.ok (proof_layer :: rest_layers)
    else Except.error (FriError.unsupportedFoldingFactor ff)

/-- `FriProver::build_proof` (query phase): asserts layers exist, walks every
layer but the last recording proof layers at folded positions, un-transposes
the last layer's evaluations into the remainder, clears the layers, and
assembles `FriProof::new(layers, remainder, 1)` — the literal constant `1`
of the source call site. -/
def build_proof (p : FriProver) (positions : List Nat) :
    Except FriError (FriProver × FriProof) :=
  if p.layers.isEmpty then Except.error FriError.layersNotBuilt
  else
    match buildProofLoop p.options.folding_factor p.layers.dropLast positions
        (p.layers.headD default).evaluations.length with
    | Except.error e => Except.error e
    | Except.ok proof_layers =>
      Except.ok (p.reset,
        FriProof.new proof_layers
          (untranspose (p.layers.getLastD default).evaluations
            p.options.folding_factor) 1)

end FriProver

end Fri

namespace Fri

-- ================================================================================================
-- BASIC LENGTH AND SHAPE LEMMAS
-- ================================================================================================

theorem transpose_slice_length (v : List Elem) (N : Nat) :
    (transpose_slice v N).length = v.length / N := by
  simp [transpose_slice]

theorem apply_drp_length (rows : List (List Elem)) (offset alpha : Elem) :
    (apply_drp rows offset alpha).length = rows.length := by
  simp [apply_drp]

theorem flatten_transpose_length (v : List Elem) (N : Nat) :
    (flatten_vector_elements (transpose_slice v N)).length = v.length / N * N := by
  simp [flatten_vector_elements, transpose_slice, List.length_flatten, List.map_map,
    Function.comp_def, List.map_const', List.sum_replicate, smul_eq_mul]

theorem group_slice_elements_length (v : List Elem) (N : Nat) :
    (group_slice_elements v N).length = v.length / N := by
  simp [group_slice_elements]

theorem hash_values_length (rows : List (List Elem)) :
    (hash_values rows).length = rows.length := by
  simp [hash_values]

-- ================================================================================================
-- LOOP ERROR CHARACTERIZATION
-- ================================================================================================

theorem buildLayersLoop_error (ff : Nat) :
    ∀ (k : Nat) (p : FriProver) (c : Channel) (ev : List Elem) (e : FriError),
      FriProver.buildLayersLoop ff k p c ev = Except.error e →
      e = FriError.unsupportedFoldingFactor ff := by
  intro k
  induction k with
  | zero => intro p c ev e h; simp [FriProver.buildLayersLoop] at h
  | succ k ih =>
    intro p c ev e h
    rw [FriProver.buildLayersLoop] at h
    split at h
    · exact ih _ _ _ _ h
    · simp only [Except.error.injEq] at h
      exact h.symm

theorem buildLayersLoop_ok (ff : Nat) (hff : ff = 4 ∨ ff = 8 ∨ ff = 16) :
    ∀ (k : Nat) (p : FriProver) (c : Channel) (ev : List Elem),
      ∃ s, FriProver.buildLayersLoop ff k p c ev = Except.ok s := by
  intro k
  induction k with
  | zero => intro p c ev; exact ⟨_, rfl⟩
  | succ k ih =>
    intro p c ev
    rw [FriProver.buildLayersLoop, if_pos hff]
    exact ih _ _ _

theorem query_layer_error (layer : FriLayer) (positions : List Nat) (N : Nat)
    (e : FriError) (h : query_layer layer positions N = Except.error e) :
    e = FriError.positionOutOfRange := by
  rw [query_layer] at h
  split at h
  · simp at h
  · simpa using h.symm

theorem buildProofLoop_error (ff : Nat) :
    ∀ (ls : List FriLayer) (posns : List Nat) (d : Nat) (e : FriError),
      FriProver.buildProofLoop ff ls posns d = Except.error e →
      e = FriError.positionOutOfRange ∨ e = FriError.unsupportedFoldingFactor ff := by
  intro ls
  induction ls with
  | nil => intro posns d e h; simp [FriProver.buildProofLoop] at h
  | cons layer rest ih =>
    intro posns d e h
    rw [FriProver.buildProofLoop] at h
    split at h
    · split at h
      · rename_i heq
        simp only [Except.error.injEq] at h
        exact Or.inl (h ▸ query_layer_error _ _ _ _ heq)
      · split at h
        · rename_i heq2
          simp only [Except.error.injEq] at h
          exact ih _ _ _ (h ▸ heq2)
        · simp at h
    · simp only [Except.error.injEq] at h
      exact Or.inr h.symm

end Fri

namespace Fri

-- ================================================================================================
-- CONCRETE RUN USED BY WITNESSES (length-16 domain, folding factor 4, max remainder 4)
-- ================================================================================================

/-- Options of the concrete witness run. -/
def wOptions : FriOptions := ⟨4, 1, 4⟩

/-- Commit-phase result of the concrete witness run. -/
def wCommit : FriProver × Channel :=
  ((FriProver.new wOptions).build_layers ⟨[]⟩ (List.range 16)).toOption.getD
    (FriProver.new wOptions, ⟨[]⟩)

/-- Query-phase result of the concrete witness run (positions `[0, 5, 9]`). -/
def wProof : FriProver × FriProof :=
  (wCommit.1.build_proof [0, 5, 9]).toOption.getD (wCommit.1, FriProof.new [] [] 0)

-- ================================================================================================
-- C4
-- ================================================================================================

/-- C4: `build_layers` raises its entry assertion (`priorProofPending`) iff
the prover already holds layers from a prior cycle, and `build_proof` raises
its entry assertion (`layersNotBuilt`) iff the prover holds no layers; no
other circumstance triggers these two assertions. -/
theorem entry_assertions_iff (p : FriProver) (c : Channel) (ev : List Elem)
    (positions : List Nat) :
    (p.build_layers c ev = Except.error FriError.priorProofPending ↔ p.layers ≠ []) ∧
    (p.build_proof positions = Except.error FriError.layersNotBuilt ↔ p.layers = []) := by
  constructor
  · rw [FriProver.build_layers]
    cases hl : p.layers with
    | nil =>
      simp only [hl, List.isEmpty_nil, if_true, ne_eq, not_true_eq_false, iff_false]
      intro h
      cases heq : FriProver.buildLayersLoop p.folding_factor
          (p.options.num_fri_layers ev.length + 1) p c ev with
      | ok s => rw [heq] at h; simp at h
      | error e =>
        rw [heq] at h
        simp only [Except.error.injEq] at h
        exact absurd (h ▸ buildLayersLoop_error _ _ _ _ _ _ heq) (by simp)
    | cons a l => simp [hl]
  · rw [FriProver.build_proof]
    cases hl : p.layers with
    | nil => simp
    | cons a l =>
      simp only [List.isEmpty_cons, if_false, Bool.false_eq_true, reduceCtorEq,
        iff_false]
      intro h
      cases heq : FriProver.buildProofLoop p.options.folding_factor
          (a :: l).dropLast positions ((a :: l).headD default).evaluations.length with
      | ok s => rw [heq] at h; simp at h
      | error e =>
        rw [heq] at h
        simp only [Except.error.injEq] at h
        rcases buildProofLoop_error _ _ _ _ _ heq with h2 | h2
        · exact FriError.noConfusion (h.symm.trans h2)
        · exact FriError.noConfusion (h.symm.trans h2)

end Fri

namespace Fri

-- ================================================================================================
-- C8 AND SUPPORTING LEMMAS
-- ================================================================================================

theorem build_layers_no_pending_error (p : FriProver) (hl : p.layers = [])
    (c : Channel) (ev : List Elem) :
    p.build_layers c ev ≠ Except.error FriError.priorProofPending := by
  rw [FriProver.build_layers, hl]
  simp only [List.isEmpty_nil, if_true]
  intro h
  cases heq : FriProver.buildLayersLoop p.folding_factor
      (p.options.num_fri_layers ev.length + 1) p c ev with
  | ok s => rw [heq] at h; obtain ⟨a, b, ev2⟩ := s; simp at h
  | error e =>
    rw [heq] at h
    simp only [Except.error.injEq] at h
    exact FriError.noConfusion (h.symm.trans (buildLayersLoop_error _ _ _ _ _ _ heq))

theorem build_proof_ok_reset (p : FriProver) (positions : List Nat)
    (p' : FriProver) (pr : FriProof)
    (h : p.build_proof positions = Except.ok (p', pr)) :
    p'.layers = [] := by
  rw [FriProver.build_proof] at h
  split at h
  · exact absurd h (by simp)
  · split at h
    · exact absurd h (by simp)
    · simp only [Except.ok.injEq, Prod.mk.injEq] at h
      exact h.1 ▸ rfl

/-- C8: when `build_proof` returns successfully, all stored layers have been
cleared — the prover is back in the idle state (`num_layers` is `0`) and a
new commit phase can start without a separate reset (its entry assertion
cannot fire). -/
theorem build_proof_returns_prover_to_idle (p : FriProver) (positions : List Nat)
    (p' : FriProver) (pr : FriProof)
    (h : p.build_proof positions = Except.ok (p', pr)) :
    p'.num_layers = 0 ∧
      ∀ (c : Channel) (ev : List Elem),
        p'.build_layers c ev ≠ Except.error FriError.priorProofPending := by
  have hl := build_proof_ok_reset p positions p' pr h
  exact ⟨by simp [FriProver.num_layers, hl],
    fun c ev => build_layers_no_pending_error p' hl c ev⟩

/-- Witness for C8: the concrete length-16 / folding-factor-4 run. -/
theorem build_proof_returns_prover_to_idle_witness :
    wProof.1.num_layers = 0 ∧
      ∀ (c : Channel) (ev : List Elem),
        wProof.1.build_layers c ev ≠ Except.error FriError.priorProofPending :=
  build_proof_returns_prover_to_idle wCommit.1 [0, 5, 9] wProof.1 wProof.2 (by decide)

-- ================================================================================================
-- C9 AND SUPPORTING LEMMAS
-- ================================================================================================

theorem build_layer_inv (ff : Nat) (hff : ff = 4 ∨ ff = 8 ∨ ff = 16) (p : FriProver)
    (c : Channel) (ev : List Elem)
    (hinv : ∀ layer ∈ p.layers, layer.tree.leaf_count = layer.evaluations.length / ff) :
    ∀ layer ∈ (p.build_layer c ev ff).1.layers,
      layer.tree.leaf_count = layer.evaluations.length / ff := by
  intro layer hmem
  simp only [FriProver.build_layer, List.mem_append, List.mem_singleton] at hmem
  rcases hmem with hmem | rfl
  · exact hinv _ hmem
  · have hffpos : 0 < ff := by rcases hff with rfl | rfl | rfl <;> decide
    simp only [MerkleTree.leaf_count, MerkleTree.new, hash_values_length,
      transpose_slice_length, flatten_transpose_length,
      Nat.mul_div_cancel _ hffpos]

theorem buildLayersLoop_inv (ff : Nat) :
    ∀ (k : Nat) (p : FriProver) (c : Channel) (ev : List Elem)
      (s : FriProver × Channel × List Elem),
      FriProver.buildLayersLoop ff k p c ev = Except.ok s →
      (∀ layer ∈ p.layers, layer.tree.leaf_count = layer.evaluations.length / ff) →
      ∀ layer ∈ s.1.layers, layer.tree.leaf_count = layer.evaluations.length / ff := by
  intro k
  induction k with
  | zero =>
    intro p c ev s h hinv
    simp only [FriProver.buildLayersLoop, Except.ok.injEq] at h
    subst h
    exact hinv
  | succ k ih =>
    intro p c ev s h hinv
    rw [FriProver.buildLayersLoop] at h
    split at h
    · rename_i hc
      exact ih _ _ _ _ h (build_layer_inv ff hc p c ev hinv)
    · simp at h

/-- C9: every layer stored by a successful commit phase satisfies the
invariant `tree.leaf_count == evaluations.len() / folding_factor` — one
Merkle leaf per transposed row — and, layers being immutable once stored,
this holds from creation until they are cleared. -/
theorem layer_tree_leaf_count_invariant (opt : FriOptions) (c : Channel)
    (ev : List Elem) (p' : FriProver) (c' : Channel)
    (h : (FriProver.new opt).build_layers c ev = Except.ok (p', c')) :
    ∀ layer ∈ p'.layers,
      layer.tree.leaf_count = layer.evaluations.length / opt.folding_factor := by
  rw [FriProver.build_layers] at h
  split at h
  · split at h
    · rename_i a b ev2 heq
      simp only [Except.ok.injEq, Prod.mk.injEq] at h
      obtain ⟨rfl, rfl⟩ := h
      exact buildLayersLoop_inv _ _ _ _ _ _ heq
        (by intro layer hmem; simp [FriProver.new] at hmem)
    · simp at h
  · simp at h

/-- Witness for C9: the first stored layer of the concrete
length-16 / folding-factor-4 run. -/
theorem layer_tree_leaf_count_invariant_witness :
    (wCommit.1.layers.headD default).tree.leaf_count =
      (wCommit.1.layers.headD default).evaluations.length / wOptions.folding_factor :=
  layer_tree_leaf_count_invariant wOptions ⟨[]⟩ (List.range 16) wCommit.1 wCommit.2
    (by decide) (wCommit.1.layers.headD default) (by decide)

end Fri

namespace Fri

-- ================================================================================================
-- C5 AND SUPPORTING LEMMAS
-- ================================================================================================

theorem getD_map_range {α : Type} (n i : Nat) (hi : i < n) (f : Nat → α) (d : α) :
    ((List.range n).map f).getD i d = f i := by
  rw [List.getD_eq_getElem?_getD, List.getElem?_map, List.getElem?_range hi]
  rfl

theorem take_drop_eq_map_range (v : List Elem) (a N : Nat) (h : a + N ≤ v.length) :
    (v.drop a).take N = (List.range N).map (fun j => v.getD (a + j) 0) := by
  apply List.ext_getElem?
  intro j
  by_cases hj : j < N
  · have hlt : a + j < v.length := by omega
    rw [List.getElem?_take, if_pos hj, List.getElem?_drop, List.getElem?_map,
      List.getElem?_range hj]
    simp [List.getD_eq_getElem?_getD, List.getElem?_eq_getElem hlt]
  · rw [List.getElem?_take, if_neg hj, List.getElem?_eq_none]
    simp [Nat.le_of_not_lt hj]

/-- C5: for every committed layer and every in-range row position, the
queried value group recorded for that position is exactly the
`folding_factor` consecutive values stored at transposed indices
`[pos * N, (pos + 1) * N)` of the layer's evaluations buffer. -/
theorem query_layer_returns_committed_rows (layer : FriLayer) (positions : List Nat)
    (N : Nat) (hin : ∀ pos ∈ positions, pos < layer.evaluations.length / N) :
    ∃ pl, query_layer layer positions N = Except.ok pl ∧
      pl.queried_values =
        positions.map (fun pos => (layer.evaluations.drop (pos * N)).take N) := by
  have hall : positions.all
      (fun pos => decide (pos < (group_slice_elements layer.evaluations N).length)) = true := by
    rw [List.all_eq_true]
    intro pos hpos
    simpa [group_slice_elements_length] using hin pos hpos
  rw [query_layer]
  rw [if_pos hall]
  refine ⟨_, rfl, ?_⟩
  simp only [FriProofLayer.new]
  apply List.map_congr_left
  intro pos hpos
  have hp : pos < layer.evaluations.length / N := hin pos hpos
  have hle : pos * N + N ≤ layer.evaluations.length := by
    have h1 : pos * N + N ≤ layer.evaluations.length / N * N := by
      calc pos * N + N = (pos + 1) * N := by ring
        _ ≤ layer.evaluations.length / N * N :=
          Nat.mul_le_mul_right N (Nat.succ_le_of_lt hp)
    have h2 : layer.evaluations.length / N * N ≤ layer.evaluations.length :=
      Nat.div_mul_le_self _ _
    omega
  rw [group_slice_elements, getD_map_range _ _ hp, take_drop_eq_map_range _ _ _ hle]

/-- Witness for C5: a concrete layer with eight evaluations, `N = 4`,
positions `[1, 0]`. -/
theorem query_layer_returns_committed_rows_witness :
    ∃ pl, query_layer ⟨⟨[9, 8]⟩, [10, 11, 12, 13, 20, 21, 22, 23]⟩ [1, 0] 4 =
        Except.ok pl ∧
      pl.queried_values = [1, 0].map
        (fun pos => (([10, 11, 12, 13, 20, 21, 22, 23] : List Elem).drop (pos * 4)).take 4) :=
  query_layer_returns_committed_rows ⟨⟨[9, 8]⟩, [10, 11, 12, 13, 20, 21, 22, 23]⟩
    [1, 0] 4 (by decide)

end Fri

namespace Fri

-- ================================================================================================
-- C3 AND SUPPORTING LEMMAS
-- ================================================================================================

theorem row_index_inj (n a b ja jb : Nat) (ha : a < n) (hb : b < n)
    (h : a + n * ja = b + n * jb) : a = b ∧ ja = jb := by
  rcases Nat.lt_trichotomy ja jb with hj | hj | hj
  · exfalso
    have hstep : n * ja + n ≤ n * jb := by
      calc n * ja + n = n * (ja + 1) := by ring
        _ ≤ n * jb := Nat.mul_le_mul_left n (Nat.succ_le_of_lt hj)
    omega
  · subst hj; omega
  · exfalso
    have hstep : n * jb + n ≤ n * ja := by
      calc n * jb + n = n * (jb + 1) := by ring
        _ ≤ n * ja := Nat.mul_le_mul_left n (Nat.succ_le_of_lt hj)
    omega

theorem scatter_length (ps : List (Nat × Nat)) :
    ∀ base : List Elem,
      (ps.foldl (fun acc p => acc.set p.1 p.2) base).length = base.length := by
  induction ps with
  | nil => intro base; rfl
  | cons p rest ih => intro base; rw [List.foldl_cons, ih, List.length_set]

theorem scatter_getD_not_mem :
    ∀ (ps : List (Nat × Nat)) (k : Nat), (∀ q ∈ ps, q.1 ≠ k) →
      ∀ base : List Elem,
        (ps.foldl (fun acc p => acc.set p.1 p.2) base).getD k 0 = base.getD k 0 := by
  intro ps
  induction ps with
  | nil => intro k _ base; rfl
  | cons p rest ih =>
    intro k hk base
    rw [List.foldl_cons, ih k (fun q hq => hk q (List.mem_cons_of_mem _ hq))]
    rw [List.getD_eq_getElem?_getD, List.getD_eq_getElem?_getD,
      List.getElem?_set_ne (hk p (List.mem_cons_self _ _))]

theorem scatter_getD_mem :
    ∀ (ps : List (Nat × Nat)) (k v : Nat), (k, v) ∈ ps → (ps.map Prod.fst).Nodup →
      ∀ base : List Elem, k < base.length →
        (ps.foldl (fun acc p => acc.set p.1 p.2) base).getD k 0 = v := by
  intro ps
  induction ps with
  | nil => intro k v hmem; cases hmem
  | cons p rest ih =>
    intro k v hmem hnodup base hk
    rw [List.foldl_cons]
    rcases List.mem_cons.mp hmem with heq | hmem'
    · subst heq
      have hnotin : ∀ q ∈ rest, q.1 ≠ k := by
        intro q hq hqk
        have hmm : (k : Nat) ∈ rest.map Prod.fst := hqk ▸ List.mem_map_of_mem _ hq
        exact (List.nodup_cons.mp (by simpa using hnodup)).1 hmm
      rw [scatter_getD_not_mem rest k hnotin]
      simp [List.getD_eq_getElem?_getD, List.getElem?_set_self hk]
    · exact ih k v hmem' (by simpa using hnodup.of_cons) (base.set p.1 p.2)
        (by rwa [List.length_set])

theorem untranspose_pairs_eq (vals : List Elem) (ff : Nat) :
    FriProver.untranspose vals ff =
      (((List.range (vals.length / ff)).flatMap fun i =>
          (List.range ff).map fun j =>
            (i + vals.length / ff * j, vals.getD (i * ff + j) 0))).foldl
        (fun acc p => acc.set p.1 p.2) (List.replicate vals.length 0) := rfl

theorem untranspose_length (vals : List Elem) (ff : Nat) :
    (FriProver.untranspose vals ff).length = vals.length := by
  rw [untranspose_pairs_eq, scatter_length, List.length_replicate]

theorem untranspose_getD (vals : List Elem) (ff i j : Nat)
    (hi : i < vals.length / ff) (hj : j < ff)
    (hlen : vals.length / ff * ff = vals.length) :
    (FriProver.untranspose vals ff).getD (i + vals.length / ff * j) 0 =
      vals.getD (i * ff + j) 0 := by
  have hn : 0 < vals.length / ff := Nat.lt_of_le_of_lt (Nat.zero_le _) hi
  rw [untranspose_pairs_eq]
  apply scatter_getD_mem
  · rw [List.mem_flatMap]
    exact ⟨i, List.mem_range.mpr hi, List.mem_map.mpr ⟨j, List.mem_range.mpr hj, rfl⟩⟩
  · rw [List.map_flatMap]
    simp only [List.map_map]
    rw [List.nodup_flatMap]
    constructor
    · intro a _
      refine List.Nodup.map ?_ (List.nodup_range ff)
      intro x y hxy
      simp only [Function.comp_apply] at hxy
      have hxy2 : vals.length / ff * x = vals.length / ff * y := by omega
      exact Nat.eq_of_mul_eq_mul_left hn hxy2
    · refine List.Pairwise.imp_of_mem ?_ (List.pairwise_lt_range _)
      intro a b ha hb hab x hxa hxb
      simp only [Function.comp_apply, List.mem_map, List.mem_range] at hxa hxb
      obtain ⟨ja, hja, hja2⟩ := hxa
      obtain ⟨jb, hjb, hjb2⟩ := hxb
      have heq2 : a + vals.length / ff * ja = b + vals.length / ff * jb := by
        omega
      exact absurd (row_index_inj _ _ _ _ _ (List.mem_range.mp ha)
        (List.mem_range.mp hb) heq2).1 (Nat.ne_of_lt hab)
  · rw [List.length_replicate]
    have h1 : vals.length / ff * j + vals.length / ff ≤ vals.length / ff * ff := by
      calc vals.length / ff * j + vals.length / ff = vals.length / ff * (j + 1) := by ring
        _ ≤ vals.length / ff * ff := Nat.mul_le_mul_left _ (Nat.succ_le_of_lt hj)
    omega

end Fri

namespace Fri

theorem flatten_getD (ff : Nat) :
    ∀ (ls : List (List Elem)), (∀ l ∈ ls, l.length = ff) →
      ∀ (q r : Nat), q < ls.length → r < ff →
        ls.flatten.getD (q * ff + r) 0 = (ls.getD q []).getD r 0 := by
  intro ls
  induction ls with
  | nil => intro _ q r hq; cases hq
  | cons l rest ih =>
    intro hlen q r hq hr
    rw [List.flatten_cons]
    cases q with
    | zero =>
      have hl : l.length = ff := hlen l (List.mem_cons_self _ _)
      have hrl : r < l.length := hl ▸ hr
      rw [Nat.zero_mul, Nat.zero_add, List.getD_cons_zero,
        List.getD_eq_getElem?_getD, List.getElem?_append_left hrl,
        ← List.getD_eq_getElem?_getD]
    | succ q' =>
      have hl : l.length = ff := hlen l (List.mem_cons_self _ _)
      have hidx : (q' + 1) * ff + r = l.length + (q' * ff + r) := by
        rw [hl]; ring
      rw [hidx, List.getD_cons_succ, List.getD_eq_getElem?_getD,
        List.getElem?_append_right (Nat.le_add_right _ _), Nat.add_sub_cancel_left,
        ← List.getD_eq_getElem?_getD]
      exact ih (fun m hm => hlen m (List.mem_cons_of_mem _ hm)) q' r
        (Nat.lt_of_succ_lt_succ hq) hr

theorem transpose_getD_row (v : List Elem) (N i : Nat) (hi : i < v.length / N) :
    (transpose_slice v N).getD i [] =
      (List.range N).map (fun j => v.getD (i + j * (v.length / N)) 0) := by
  rw [transpose_slice]
  exact getD_map_range _ _ hi _ _

theorem transpose_row_lengths (v : List Elem) (N : Nat) :
    ∀ l ∈ transpose_slice v N, l.length = N := by
  intro l hl
  rw [transpose_slice] at hl
  simp only [List.mem_map, List.mem_range] at hl
  obtain ⟨i, _, rfl⟩ := hl
  simp

/-- C3: the remainder un-transposition of `build_proof` places the value at
transposed index `i * folding_factor + j` at natural index `i + n * j`
(with `n = L / folding_factor`), and this un-transposition is a true inverse
of the commit-time stride transposition: applied to the flattened
transposition of any suitable vector it reproduces that vector. -/
theorem untranspose_inverts_transposition (v : List Elem) (ff : Nat)
    (hdvd : ff ∣ v.length) :
    (∀ i j, i < v.length / ff → j < ff →
        (FriProver.untranspose v ff).getD (i + v.length / ff * j) 0 =
          v.getD (i * ff + j) 0) ∧
      FriProver.untranspose (flatten_vector_elements (transpose_slice v ff)) ff = v := by
  have hmul : v.length / ff * ff = v.length := Nat.div_mul_cancel hdvd
  constructor
  · intro i j hi hj
    exact untranspose_getD v ff i j hi hj hmul
  · have hwlen : (flatten_vector_elements (transpose_slice v ff)).length = v.length := by
      rw [flatten_transpose_length, hmul]
    have hwn : (flatten_vector_elements (transpose_slice v ff)).length / ff =
        v.length / ff := by rw [hwlen]
    have hwmul : (flatten_vector_elements (transpose_slice v ff)).length / ff * ff =
        (flatten_vector_elements (transpose_slice v ff)).length := by
      rw [hwn, hmul, hwlen]
    apply List.ext_getElem
    · rw [untranspose_length, hwlen]
    · intro t h1 h2
      have ht : t < v.length := h2
      have hn : 0 < v.length / ff := by
        rcases Nat.eq_zero_or_pos (v.length / ff) with h0 | h0
        · exfalso; rw [h0, Nat.zero_mul] at hmul; omega
        · exact h0
      have hi : t % (v.length / ff) < v.length / ff := Nat.mod_lt _ hn
      have hj : t / (v.length / ff) < ff := by
        rw [Nat.div_lt_iff_lt_mul hn]
        have hvl : v.length = ff * (v.length / ff) := by
          conv_lhs => rw [← hmul]
          ring
        omega
      have hdecomp : t % (v.length / ff) +
          v.length / ff * (t / (v.length / ff)) = t := by
        have h3 := Nat.div_add_mod t (v.length / ff)
        omega
      have hstep1 := untranspose_getD (flatten_vector_elements (transpose_slice v ff))
        ff (t % (v.length / ff)) (t / (v.length / ff))
        (by rw [hwn]; exact hi) hj hwmul
      rw [hwn, hdecomp] at hstep1
      have hstep2 : (flatten_vector_elements (transpose_slice v ff)).getD
          (t % (v.length / ff) * ff + t / (v.length / ff)) 0 = v.getD t 0 := by
        rw [flatten_vector_elements,
          flatten_getD ff _ (transpose_row_lengths v ff) _ _
            (by rw [transpose_slice_length]; exact hi) hj,
          transpose_getD_row v ff _ hi,
          getD_map_range _ _ hj]
        congr 1
        have h3 := Nat.div_add_mod t (v.length / ff)
        rw [Nat.mul_comm] at h3
        omega
      rw [← List.getD_eq_getElem
          (FriProver.untranspose (flatten_vector_elements (transpose_slice v ff)) ff) 0 h1,
        ← List.getD_eq_getElem v 0 h2, hstep1, hstep2]

/-- Witness for C3: `v = [0, …, 7]`, folding factor 4. -/
theorem untranspose_inverts_transposition_witness :
    (∀ i j, i < ([0, 1, 2, 3, 4, 5, 6, 7] : List Elem).length / 4 → j < 4 →
        (FriProver.untranspose [0, 1, 2, 3, 4, 5, 6, 7] 4).getD
            (i + ([0, 1, 2, 3, 4, 5, 6, 7] : List Elem).length / 4 * j) 0 =
          ([0, 1, 2, 3, 4, 5, 6, 7] : List Elem).getD (i * 4 + j) 0) ∧
      FriProver.untranspose
          (flatten_vector_elements (transpose_slice [0, 1, 2, 3, 4, 5, 6, 7] 4)) 4 =
        [0, 1, 2, 3, 4, 5, 6, 7] :=
  untranspose_inverts_transposition [0, 1, 2, 3, 4, 5, 6, 7] 4 (by decide)

end Fri

namespace Fri

-- ================================================================================================
-- C1 AND SUPPORTING LEMMAS
-- ================================================================================================

theorem build_layer_components (p : FriProver) (c : Channel) (ev : List Elem) (N : Nat) :
    (p.build_layer c ev N).1.options = p.options ∧
    (p.build_layer c ev N).1.layers = p.layers ++
      [⟨MerkleTree.new (hash_values (transpose_slice ev N)),
        flatten_vector_elements (transpose_slice ev N)⟩] ∧
    (p.build_layer c ev N).2.2 =
      apply_drp (transpose_slice ev N) p.options.domain_offset
        (drawValue (c.trace ++ [ChannelEvent.commit
          (MerkleTree.new (hash_values (transpose_slice ev N))).root])) ∧
    (p.build_layer c ev N).2.1.trace = c.trace ++
      [ChannelEvent.commit (MerkleTree.new (hash_values (transpose_slice ev N))).root,
       ChannelEvent.draw (drawValue (c.trace ++ [ChannelEvent.commit
         (MerkleTree.new (hash_values (transpose_slice ev N))).root]))] := by
  refine ⟨rfl, rfl, rfl, ?_⟩
  simp [FriProver.build_layer, Channel.commit_fri_layer, Channel.draw_fri_alpha]

theorem buildLayersLoop_lengths (ff : Nat) (hff : ff = 4 ∨ ff = 8 ∨ ff = 16) :
    ∀ (k : Nat) (p : FriProver) (c : Channel) (ev : List Elem),
      ff ^ k ∣ ev.length →
      ∃ s, FriProver.buildLayersLoop ff k p c ev = Except.ok s ∧
        s.1.layers.map (fun l => l.evaluations.length) =
          p.layers.map (fun l => l.evaluations.length) ++
            (List.range k).map (fun i => ev.length / ff ^ i) ∧
        s.2.2.length = ev.length / ff ^ k := by
  intro k
  induction k with
  | zero =>
    intro p c ev _
    exact ⟨(p, c, ev), rfl, by simp, by simp⟩
  | succ k ih =>
    intro p c ev hdvd
    have hffpos : 0 < ff := by rcases hff with rfl | rfl | rfl <;> decide
    have hdvd1 : ff ∣ ev.length :=
      dvd_trans (dvd_pow_self ff (Nat.succ_ne_zero k)) hdvd
    have hstep : (p.build_layer c ev ff).2.2.length = ev.length / ff := by
      rw [(build_layer_components p c ev ff).2.2.1, apply_drp_length,
        transpose_slice_length]
    have hlayer : (p.build_layer c ev ff).1.layers.map (fun l => l.evaluations.length) =
        p.layers.map (fun l => l.evaluations.length) ++ [ev.length] := by
      rw [(build_layer_components p c ev ff).2.1]
      simp [flatten_transpose_length, Nat.div_mul_cancel hdvd1]
    have hdvd2 : ff ^ k ∣ ev.length / ff := by
      rw [Nat.dvd_div_iff_mul_dvd hdvd1, ← pow_succ']
      exact hdvd
    obtain ⟨s, hs, hmap, hlen⟩ := ih (p.build_layer c ev ff).1 (p.build_layer c ev ff).2.1
      (p.build_layer c ev ff).2.2 (hstep ▸ hdvd2)
    refine ⟨s, ?_, ?_, ?_⟩
    · rw [FriProver.buildLayersLoop, if_pos hff]
      exact hs
    · rw [hmap, hlayer, hstep, List.range_succ_eq_map, List.map_cons, List.map_map,
        List.append_assoc, List.singleton_append]
      congr 1
      congr 1
      · simp
      · apply List.map_congr_left
        intro i _
        simp only [Function.comp_apply]
        rw [Nat.div_div_eq_div_mul, pow_succ']
    · rw [hlen, hstep, Nat.div_div_eq_div_mul, ← pow_succ']

/-- C1: for every supported folding factor and every evaluation length that
is a (full) power of the factor times a folding-factor-divisible remainder
size, `build_layers` stores exactly `num_fri_layers(L) + 1` layers, and the
evaluation buffer of layer `i` (0-indexed, in commit order) has length
`L / folding_factor ^ i`. -/
theorem build_layers_layer_count_and_sizes (opt : FriOptions) (c : Channel)
    (ev : List Elem)
    (hff : opt.folding_factor = 4 ∨ opt.folding_factor = 8 ∨ opt.folding_factor = 16)
    (hdvd : opt.folding_factor ^ (opt.num_fri_layers ev.length + 1) ∣ ev.length) :
    ∃ p' c', (FriProver.new opt).build_layers c ev = Except.ok (p', c') ∧
      p'.num_layers = opt.num_fri_layers ev.length + 1 ∧
      ∀ i (hi : i < p'.layers.length),
        (p'.layers[i]).evaluations.length = ev.length / opt.folding_factor ^ i := by
  obtain ⟨s, hs, hmap, hlen⟩ := buildLayersLoop_lengths opt.folding_factor hff
    (opt.num_fri_layers ev.length + 1) (FriProver.new opt) c ev hdvd
  obtain ⟨p', c', ev'⟩ := s
  have hmap' : p'.layers.map (fun l => l.evaluations.length) =
      (List.range (opt.num_fri_layers ev.length + 1)).map
        (fun i => ev.length / opt.folding_factor ^ i) := by
    simpa [FriProver.new] using hmap
  have hcount : p'.layers.length = opt.num_fri_layers ev.length + 1 := by
    have h7 := congrArg List.length hmap'
    simpa using h7
  refine ⟨p', c', ?_, hcount, ?_⟩
  · rw [FriProver.build_layers]
    have hcond : (FriProver.new opt).layers.isEmpty = true := rfl
    rw [if_pos hcond]
    have hs' : FriProver.buildLayersLoop (FriProver.new opt).folding_factor
        ((FriProver.new opt).options.num_fri_layers ev.length + 1)
        (FriProver.new opt) c ev = Except.ok (p', c', ev') := hs
    rw [hs']
  · intro i hi
    have hcnt : i < opt.num_fri_layers ev.length + 1 := hcount ▸ hi
    have h6 := congrArg (fun l => l[i]?) hmap'
    simp only [List.getElem?_map, List.getElem?_range hcnt,
      List.getElem?_eq_getElem hi, Option.map_some'] at h6
    exact Option.some.inj h6

/-- Witness for C1: the concrete length-16 / folding-factor-4 run,
`num_fri_layers 16 = 1`, so two layers of sizes 16 and 4. -/
theorem build_layers_layer_count_and_sizes_witness :
    ∃ p' c',
      (FriProver.new wOptions).build_layers ⟨[]⟩ (List.range 16) = Except.ok (p', c') ∧
      p'.num_layers = wOptions.num_fri_layers (List.range 16).length + 1 ∧
      ∀ i (hi : i < p'.layers.length),
        (p'.layers[i]).evaluations.length =
          (List.range 16).length / wOptions.folding_factor ^ i :=
  build_layers_layer_count_and_sizes wOptions ⟨[]⟩ (List.range 16) (by decide) (by decide)

end Fri

namespace Fri

-- ================================================================================================
-- C2 AND SUPPORTING LEMMAS
-- ================================================================================================

/-- One commit-phase round as a state transformer (exactly `build_layer` on
the prover/channel/evaluations triple). -/
def stepRound (ff : Nat) (s : FriProver × Channel × List Elem) :
    FriProver × Channel × List Elem :=
  s.1.build_layer s.2.1 s.2.2 ff

theorem buildLayersLoop_eq_iterate (ff : Nat) (hff : ff = 4 ∨ ff = 8 ∨ ff = 16) :
    ∀ (k : Nat) (s : FriProver × Channel × List Elem),
      FriProver.buildLayersLoop ff k s.1 s.2.1 s.2.2 =
        Except.ok ((stepRound ff)^[k] s) := by
  intro k
  induction k with
  | zero => intro s; rfl
  | succ k ih =>
    intro s
    rw [FriProver.buildLayersLoop, if_pos hff, Function.iterate_succ_apply]
    exact ih (stepRound ff s)

theorem stepRound_options (ff : Nat) :
    ∀ (i : Nat) (s : FriProver × Channel × List Elem),
      ((stepRound ff)^[i] s).1.options = s.1.options := by
  intro i
  induction i with
  | zero => intro s; rfl
  | succ i ih =>
    intro s
    rw [Function.iterate_succ_apply, ih]
    rfl

/-- C2: `build_layers` is the iteration of the single-round transformer, and
in every round `i` the Merkle root over the round's (transposed, pre-fold)
evaluations enters the transcript strictly before the challenge alpha: the
alpha appended after it is derived from the transcript already containing
that commitment, and exactly that alpha feeds the degree-respecting
projection producing the next round's evaluations. -/
theorem commit_strictly_before_draw_each_round (opt : FriOptions) (c : Channel)
    (ev : List Elem) (i : Nat)
    (hff : opt.folding_factor = 4 ∨ opt.folding_factor = 8 ∨ opt.folding_factor = 16)
    (hi : i ≤ opt.num_fri_layers ev.length) :
    (∃ p' c',
      (FriProver.new opt).build_layers c ev = Except.ok (p', c') ∧
      (p', c') =
        (((stepRound opt.folding_factor)^[opt.num_fri_layers ev.length + 1]
            (FriProver.new opt, c, ev)).1,
         ((stepRound opt.folding_factor)^[opt.num_fri_layers ev.length + 1]
            (FriProver.new opt, c, ev)).2.1)) ∧
    (let s := (stepRound opt.folding_factor)^[i] (FriProver.new opt, c, ev)
     let root := (MerkleTree.new (hash_values
        (transpose_slice s.2.2 opt.folding_factor))).root
     let alpha := drawValue (s.2.1.trace ++ [ChannelEvent.commit root])
     ((stepRound opt.folding_factor)^[i + 1] (FriProver.new opt, c, ev)).2.1.trace =
        s.2.1.trace ++ [ChannelEvent.commit root, ChannelEvent.draw alpha] ∧
     ((stepRound opt.folding_factor)^[i + 1] (FriProver.new opt, c, ev)).2.2 =
        apply_drp (transpose_slice s.2.2 opt.folding_factor)
          opt.domain_offset alpha) := by
  constructor
  · refine ⟨((stepRound opt.folding_factor)^[opt.num_fri_layers ev.length + 1]
        (FriProver.new opt, c, ev)).1,
      ((stepRound opt.folding_factor)^[opt.num_fri_layers ev.length + 1]
        (FriProver.new opt, c, ev)).2.1, ?_, rfl⟩
    rw [FriProver.build_layers]
    have hcond : (FriProver.new opt).layers.isEmpty = true := rfl
    rw [if_pos hcond]
    have hs' : FriProver.buildLayersLoop (FriProver.new opt).folding_factor
        ((FriProver.new opt).options.num_fri_layers ev.length + 1)
        (FriProver.new opt) c ev =
        Except.ok ((stepRound opt.folding_factor)^[opt.num_fri_layers ev.length + 1]
          (FriProver.new opt, c, ev)) :=
      buildLayersLoop_eq_iterate opt.folding_factor hff _ (FriProver.new opt, c, ev)
    rw [hs']
  · have hopt : ((stepRound opt.folding_factor)^[i]
        (FriProver.new opt, c, ev)).1.options = opt :=
      stepRound_options _ i _
    constructor
    · rw [Function.iterate_succ_apply']
      exact (build_layer_components _ _ _ _).2.2.2
    · rw [Function.iterate_succ_apply']
      have hcomp := (build_layer_components
        ((stepRound opt.folding_factor)^[i] (FriProver.new opt, c, ev)).1
        ((stepRound opt.folding_factor)^[i] (FriProver.new opt, c, ev)).2.1
        ((stepRound opt.folding_factor)^[i] (FriProver.new opt, c, ev)).2.2
        opt.folding_factor).2.2.1
      rw [hopt] at hcomp
      exact hcomp

/-- Witness for C2: round 0 of the concrete length-16 / folding-factor-4
run. -/
theorem commit_strictly_before_draw_each_round_witness :
    (∃ p' c',
      (FriProver.new wOptions).build_layers ⟨[]⟩ (List.range 16) = Except.ok (p', c') ∧
      (p', c') =
        (((stepRound wOptions.folding_factor)^[wOptions.num_fri_layers
              (List.range 16).length + 1]
            (FriProver.new wOptions, ⟨[]⟩, List.range 16)).1,
         ((stepRound wOptions.folding_factor)^[wOptions.num_fri_layers
              (List.range 16).length + 1]
            (FriProver.new wOptions, ⟨[]⟩, List.range 16)).2.1)) ∧
    (let s := (stepRound wOptions.folding_factor)^[0]
        (FriProver.new wOptions, ⟨[]⟩, List.range 16)
     let root := (MerkleTree.new (hash_values
        (transpose_slice s.2.2 wOptions.folding_factor))).root
     let alpha := drawValue (s.2.1.trace ++ [ChannelEvent.commit root])
     ((stepRound wOptions.folding_factor)^[0 + 1]
          (FriProver.new wOptions, ⟨[]⟩, List.range 16)).2.1.trace =
        s.2.1.trace ++ [ChannelEvent.commit root, ChannelEvent.draw alpha] ∧
     ((stepRound wOptions.folding_factor)^[0 + 1]
          (FriProver.new wOptions, ⟨[]⟩, List.range 16)).2.2 =
        apply_drp (transpose_slice s.2.2 wOptions.folding_factor)
          wOptions.domain_offset alpha) :=
  commit_strictly_before_draw_each_round wOptions ⟨[]⟩ (List.range 16) 0
    (by decide) (by decide)

end Fri

namespace Fri

-- ================================================================================================
-- C7 AND SUPPORTING LEMMAS
-- ================================================================================================

/-- The running position set of the query phase: `foldedPositions pos d ff i`
is the position set used for proof layer `i`, obtained by `i + 1` successive
applications of `fold_positions`, with the running domain size divided by the
folding factor before each subsequent fold. -/
def foldedPositions (positions : List Nat) (d ff : Nat) : Nat → List Nat
  | 0 => fold_positions positions d ff
  | i + 1 => fold_positions (foldedPositions positions d ff i) (d / ff ^ (i + 1)) ff

theorem foldedPositions_shift (positions : List Nat) (d ff : Nat) :
    ∀ i, foldedPositions positions d ff (i + 1) =
      foldedPositions (fold_positions positions d ff) (d / ff) ff i := by
  intro i
  induction i with
  | zero =>
    show fold_positions (fold_positions positions d ff) (d / ff ^ 1) ff = _
    rw [pow_one]
    rfl
  | succ i ih =>
    show fold_positions (foldedPositions positions d ff (i + 1)) (d / ff ^ (i + 2)) ff = _
    rw [ih]
    show _ = fold_positions (foldedPositions (fold_positions positions d ff) (d / ff) ff i)
      (d / ff / ff ^ (i + 1)) ff
    rw [Nat.div_div_eq_div_mul, ← pow_succ']

theorem buildProofLoop_spec (ff : Nat) :
    ∀ (ls : List FriLayer) (positions : List Nat) (d : Nat) (pls : List FriProofLayer),
      FriProver.buildProofLoop ff ls positions d = Except.ok pls →
      pls.length = ls.length ∧
      ∀ i (hi : i < ls.length) (hi2 : i < pls.length),
        query_layer (ls[i]) (foldedPositions positions d ff i) ff =
          Except.ok (pls[i]) := by
  intro ls
  induction ls with
  | nil =>
    intro positions d pls h
    simp only [FriProver.buildProofLoop, Except.ok.injEq] at h
    subst h
    exact ⟨rfl, fun i hi => absurd hi (Nat.not_lt_zero i)⟩
  | cons layer rest ih =>
    intro positions d pls h
    rw [FriProver.buildProofLoop] at h
    split at h
    · split at h
      · simp at h
      · rename_i pl heq
        split at h
        · simp at h
        · rename_i pls' heq2
          simp only [Except.ok.injEq] at h
          subst h
          obtain ⟨hlen, hidx⟩ := ih _ _ _ heq2
          refine ⟨by simp [hlen], ?_⟩
          intro i hi hi2
          cases i with
          | zero => simpa using heq
          | succ i =>
            rw [foldedPositions_shift]
            simpa using hidx i (Nat.lt_of_succ_lt_succ hi) (Nat.lt_of_succ_lt_succ hi2)
    · simp at h

/-- C7: a successful `build_proof` processes every stored layer except the
last, in commit order: the proof layer at index `i` is exactly the query of
stored layer `i` at the `i + 1`-times-folded position set (domain size
divided by the folding factor at each step), and the proof holds exactly
`number of stored layers - 1` proof layers. -/
theorem build_proof_processes_all_but_last (p : FriProver) (positions : List Nat)
    (p' : FriProver) (pr : FriProof)
    (h : p.build_proof positions = Except.ok (p', pr)) :
    pr.layers.length = p.layers.length - 1 ∧
    ∀ i (hi : i < p.layers.dropLast.length) (hi2 : i < pr.layers.length),
      query_layer (p.layers.dropLast[i])
          (foldedPositions positions
            (p.layers.headD default).evaluations.length p.options.folding_factor i)
          p.options.folding_factor =
        Except.ok (pr.layers[i]) := by
  rw [FriProver.build_proof] at h
  split at h
  · simp at h
  · split at h
    · simp at h
    · rename_i pls heq
      simp only [Except.ok.injEq, Prod.mk.injEq] at h
      obtain ⟨rfl, rfl⟩ := h
      obtain ⟨hlen, hidx⟩ := buildProofLoop_spec _ _ _ _ _ heq
      constructor
      · simpa [FriProof.new, List.length_dropLast] using hlen
      · intro i hi hi2
        exact hidx i hi (by simpa [FriProof.new] using hi2)

/-- Witness for C7: the concrete length-16 / folding-factor-4 run with
positions `[0, 5, 9]` (two stored layers, one proof layer). -/
theorem build_proof_processes_all_but_last_witness :
    wProof.2.layers.length = wCommit.1.layers.length - 1 ∧
    ∀ i (hi : i < wCommit.1.layers.dropLast.length)
      (hi2 : i < wProof.2.layers.length),
      query_layer (wCommit.1.layers.dropLast[i])
          (foldedPositions [0, 5, 9]
            (wCommit.1.layers.headD default).evaluations.length
            wCommit.1.options.folding_factor i)
          wCommit.1.options.folding_factor =
        Except.ok (wProof.2.layers[i]) :=
  build_proof_processes_all_but_last wCommit.1 [0, 5, 9] wProof.1 wProof.2 (by decide)

end Fri

namespace Fri

-- ================================================================================================
-- C10 AND SUPPORTING LEMMAS
-- ================================================================================================

theorem fold_positions_nil (d ff : Nat) : fold_positions [] d ff = [] := rfl

theorem query_layer_nil (layer : FriLayer) (N : Nat) :
    query_layer layer [] N =
      Except.ok (FriProofLayer.new [] (layer.tree.prove_batch [])) := rfl

theorem buildProofLoop_nil_positions (ff : Nat) (hff : ff = 4 ∨ ff = 8 ∨ ff = 16) :
    ∀ (ls : List FriLayer) (d : Nat),
      ∃ pls, FriProver.buildProofLoop ff ls [] d = Except.ok pls ∧
        pls.length = ls.length ∧ ∀ pl ∈ pls, pl.queried_values = [] := by
  intro ls
  induction ls with
  | nil => intro d; exact ⟨[], rfl, rfl, by simp⟩
  | cons layer rest ih =>
    intro d
    obtain ⟨pls, hpls, hplen, hempty⟩ := ih (d / ff)
    refine ⟨FriProofLayer.new [] (layer.tree.prove_batch []) :: pls, ?_, by simp [hplen], ?_⟩
    · rw [FriProver.buildProofLoop]
      simp only [fold_positions_nil]
      rw [if_pos hff, query_layer_nil, hpls]
    · intro pl hpl
      rcases List.mem_cons.mp hpl with rfl | hpl'
      · rfl
      · exact hempty pl hpl'

/-- C10: for a prover holding at least two layers with a supported folding
factor, calling `build_proof` with an empty positions slice succeeds: every
per-layer position fold yields the empty set, each of the
`layers - 1` proof layers is built with zero queried value groups, and the
full un-transposed remainder is still returned. -/
theorem build_proof_empty_positions_safe (p : FriProver)
    (hff : p.options.folding_factor = 4 ∨ p.options.folding_factor = 8 ∨
      p.options.folding_factor = 16)
    (hlen : 2 ≤ p.layers.length) :
    ∃ p' pr, p.build_proof [] = Except.ok (p', pr) ∧
      pr.layers.length = p.layers.length - 1 ∧
      (∀ pl ∈ pr.layers, pl.queried_values = []) ∧
      pr.remainder = FriProver.untranspose
        (p.layers.getLastD default).evaluations p.options.folding_factor := by
  obtain ⟨pls, hpls, hplen, hempty⟩ := buildProofLoop_nil_positions _ hff p.layers.dropLast
    ((p.layers.headD default).evaluations.length)
  have hne : p.layers.isEmpty = false := by
    cases hl : p.layers with
    | nil => rw [hl] at hlen; simp at hlen
    | cons a l => rfl
  refine ⟨p.reset, FriProof.new pls (FriProver.untranspose
      (p.layers.getLastD default).evaluations p.options.folding_factor) 1, ?_, ?_, ?_, rfl⟩
  · rw [FriProver.build_proof, hne]
    rw [if_neg Bool.false_ne_true, hpls]
  · simpa [FriProof.new, List.length_dropLast] using hplen
  · simpa [FriProof.new] using hempty

/-- Witness for C10: the concrete two-layer run queried at no positions. -/
theorem build_proof_empty_positions_safe_witness :
    ∃ p' pr, wCommit.1.build_proof [] = Except.ok (p', pr) ∧
      pr.layers.length = wCommit.1.layers.length - 1 ∧
      (∀ pl ∈ pr.layers, pl.queried_values = []) ∧
      pr.remainder = FriProver.untranspose
        (wCommit.1.layers.getLastD default).evaluations
        wCommit.1.options.folding_factor :=
  build_proof_empty_positions_safe wCommit.1 (by decide) (by decide)

end Fri

namespace Fri

-- ================================================================================================
-- C6: COUNTEREXAMPLE AND AMENDED THEOREM
-- ================================================================================================

/-- Counterexample for C6: in the concrete folding-factor-4 run, the numeric
metadata slot of the returned `FriProof` — the slot the spec says records the
folding factor used — holds the literal constant `1` passed at the
`FriProof::new` call site, which differs from the prover's folding factor. -/
theorem proof_metadata_is_not_folding_factor :
    ∃ p' pr, wCommit.1.build_proof [0, 5, 9] = Except.ok (p', pr) ∧
      wCommit.1.options.folding_factor = 4 ∧
      pr.folding_metadata = 1 ∧
      pr.folding_metadata ≠ wCommit.1.options.folding_factor :=
  ⟨wProof.1, wProof.2, by decide, by decide, by decide, by decide⟩

/-- C6 (amended): the `FriProof` artifact returned by `build_proof` carries
the ordered proof layers and the un-transposed remainder, but its numeric
metadata slot is always the literal constant `1` of the call site — the
folding factor itself is not recorded in the artifact. -/
theorem build_proof_artifact_contents (p : FriProver) (positions : List Nat)
    (p' : FriProver) (pr : FriProof)
    (h : p.build_proof positions = Except.ok (p', pr)) :
    pr.remainder = FriProver.untranspose
        (p.layers.getLastD default).evaluations p.options.folding_factor ∧
      pr.folding_metadata = 1 := by
  rw [FriProver.build_proof] at h
  split at h
  · simp at h
  · split at h
    · simp at h
    · simp only [Except.ok.injEq, Prod.mk.injEq] at h
      obtain ⟨rfl, rfl⟩ := h
      exact ⟨rfl, rfl⟩

/-- Witness for the amended C6: the concrete run. -/
theorem build_proof_artifact_contents_witness :
    wProof.2.remainder = FriProver.untranspose
        (wCommit.1.layers.getLastD default).evaluations
        wCommit.1.options.folding_factor ∧
      wProof.2.folding_metadata = 1 :=
  build_proof_artifact_contents wCommit.1 [0, 5, 9] wProof.1 wProof.2 (by decide)

end Fri
